import Mathlib

/-!
Verification of RepoMapper's `repomap_server.py` against its specification.

The server module (`repomap_server.py`) is embedded shallowly below.  The
`RepoMap` engine it imports (`repomap_class`) is not part of the supplied
sources; where a property depends on the engine, the engine behaviour is
modelled from the specification (see the `Modelled from the spec:` doc
comments) and all server-level code is translated directly from
`repomap_server.py`.

Conventions of the embedding:
* Python strings are Lean `String`s; `str.lower()` is `pyLower`,
  `str.startswith` is `pyStartsWith`, `needle in hay` is
  `pyContains hay needle`, and `hay.find(needle)` is `pyFind hay needle`
  (yielding `-1` on absence, as in Python).
* Python's stable `list.sort(key=...)` is `sortTags` (stable insertion
  sort) with the boolean total preorder induced by the key tuple.
* Python's truncating slice `l[:m]` is `pySliceTo m l`, including the
  negative-index case.
* Injected callables (path resolution, directory scanning, the map engine,
  tag extraction, context rendering) are explicit function parameters; a
  Python function that may raise is modelled with `Except`.
-/

namespace RepoMapper

/-! ## String helpers: Python `str.lower`, `str.startswith`, `in`, `str.find` -/

/-- Python `s.lower()`, character-wise (faithful on ASCII identifiers). -/
def pyLower (s : String) : String :=
  String.mk (s.toList.map Char.toLower)

/-- Python `s.startswith(pre)`. -/
def pyStartsWith (s pre : String) : Bool :=
  pre.toList.isPrefixOf s.toList

/-- Auxiliary scan: first index `≥ i` at which `needle` occurs in the
remaining haystack `hay`, if any. -/
def subFindAux (needle : List Char) : List Char → Nat → Option Nat
  | [], i => if needle.isEmpty then some i else none
  | c :: cs, i =>
    if needle.isPrefixOf (c :: cs) then some i else subFindAux needle cs (i + 1)

/-- Python `hay.find(needle)`: index of the first occurrence, `-1` if absent. -/
def pyFind (hay needle : String) : Int :=
  match subFindAux needle.toList hay.toList 0 with
  | some i => (i : Int)
  | none => -1

/-- Python `needle in hay` (substring containment). -/
def pyContains (hay needle : String) : Bool :=
  (subFindAux needle.toList hay.toList 0).isSome

/-- Python `l[:m]` for an `int` bound `m` (negative bounds count from the
end, clamped at zero). -/
def pySliceTo (m : Int) (l : List α) : List α :=
  if 0 ≤ m then l.take m.toNat else l.take (l.length - (-m).toNat)

/-! ## Data model

`Tag` mirrors the fields of the engine's tag records that
`repomap_server.py` reads: `tag.rel_fname`, `tag.line`, `tag.name`,
`tag.kind` (`"def"` or `"ref"`). -/

structure Tag where
  rel_fname : String
  line : Int
  name : String
  kind : String
deriving DecidableEq, Repr

/-! ## `search_identifiers`: the tag pipeline (lines 276-290)

```python
for tag in all_tags:
    if query_lower in tag.name.lower():
        if (tag.kind == "def" and include_definitions) or \
           (tag.kind == "ref" and include_references):
            matching_tags.append(tag)
matching_tags.sort(key=lambda x: (x.kind != "def", x.name.lower().find(query_lower)))
matching_tags = matching_tags[:max_results]
```
-/

/-- The filter applied to each tag (lines 280-284); `query_lower` is the
already lowercased query. -/
def tag_matches (query_lower : String) (include_definitions include_references : Bool)
    (t : Tag) : Bool :=
  pyContains (pyLower t.name) query_lower &&
    ((t.kind == "def" && include_definitions) || (t.kind == "ref" && include_references))

/-- `matching_tags` before sorting (lines 277-284). -/
def matching_tags (all_tags : List Tag) (query : String)
    (include_definitions include_references : Bool) : List Tag :=
  all_tags.filter (tag_matches (pyLower query) include_definitions include_references)

/-- The sort key comparison of line 287: lexicographic `≤` on the tuple
`(x.kind != "def", x.name.lower().find(query_lower))`. -/
def keyLE (query_lower : String) (a b : Tag) : Bool :=
  let ka : Bool := a.kind != "def"
  let kb : Bool := b.kind != "def"
  (!ka && kb) ||
    (ka == kb && decide (pyFind (pyLower a.name) query_lower ≤ pyFind (pyLower b.name) query_lower))

/-- Stable insertion of `x` into an already sorted list: `x` goes after
every element `y` with `le y x`, as Python's stable sort keeps earlier
elements of equal key first. -/
def insertTag (le : α → α → Bool) (x : α) : List α → List α
  | [] => [x]
  | y :: ys => if le y x then y :: insertTag le x ys else x :: y :: ys

/-- Python's stable `list.sort` with comparison `le`: elements are inserted
left to right. -/
def sortTags (le : α → α → Bool) (l : List α) : List α :=
  l.foldl (fun acc x => insertTag le x acc) []

/-- `matching_tags` after the sort of line 287. -/
def sorted_matching_tags (all_tags : List Tag) (query : String)
    (include_definitions include_references : Bool) : List Tag :=
  sortTags (keyLE (pyLower query)) (matching_tags all_tags query include_definitions include_references)

/-- `matching_tags` after the truncation `[:max_results]` of line 290. -/
def limited_matching_tags (all_tags : List Tag) (query : String)
    (include_definitions include_references : Bool) (max_results : Int) : List Tag :=
  pySliceTo max_results (sorted_matching_tags all_tags query include_definitions include_references)

/-- The ordering the specification claims (position of the query in the
identifier first; at equal relevance, definitions ahead of references):
`a` may precede `b` iff `a`'s match position is earlier, or the positions
are equal and it is not the case that `a` is a reference while `b` is a
definition. -/
def specLE (query_lower : String) (a b : Tag) : Bool :=
  let pa := pyFind (pyLower a.name) query_lower
  let pb := pyFind (pyLower b.name) query_lower
  decide (pa < pb) || (pa == pb && ((a.kind == "def") || (b.kind != "def")))

/-- Whether a list of matches is ordered as the specification claims
(adjacent pairs related by `specLE`). -/
def specOrdered (query_lower : String) : List Tag → Bool
  | a :: b :: rest => specLE query_lower a b && specOrdered query_lower (b :: rest)
  | _ => true

/-! ## File enumeration: `find_src_files` (lines 16-25)

The filesystem is modelled as a tree of named entries; a returned path is
its list of components (`os.path.join` of the walked prefix and the file
name).  `os.walk` enumerates directory entries in an unspecified order, so
the embedding fixes one traversal order. -/

inductive FSEntry where
  | file (name : String)
  | dir (name : String) (children : List FSEntry)
deriving Repr

/-- The directory pruning of line 21: keep `d_name` unless it starts with
`'.'` or is one of the excluded directory names. -/
def keepDirName (n : String) : Bool :=
  !(pyStartsWith n ".") && !(["node_modules", "__pycache__", "venv", "env"].contains n)

/-- The file filter of line 23: keep `f` unless it starts with `'.'`. -/
def keepFileName (n : String) : Bool :=
  !(pyStartsWith n ".")

/-- The `os.walk` loop of lines 20-24, relative to the walked root: files
of the current directory pass `keepFileName`; subdirectories pass
`keepDirName` and are walked recursively, their name prefixed to every
path they produce. -/
def walk : List FSEntry → List (List String)
  | [] => []
  | FSEntry.file f :: rest => (if keepFileName f then [[f]] else []) ++ walk rest
  | FSEntry.dir d cs :: rest =>
    (if keepDirName d then (walk cs).map (fun p => d :: p) else []) ++ walk rest

/-- `find_src_files(directory)`: a non-directory argument is returned
as-is when it is a file (line 18); a directory is walked with pruning,
every result carrying the directory's own name as leading component. -/
def find_src_files : FSEntry → List (List String)
  | FSEntry.file n => [[n]]
  | FSEntry.dir n cs => (walk cs).map (fun p => n :: p)

/-- The property claimed for enumerated paths: every directory component
passes `keepDirName` and the final (file) component passes `keepFileName`. -/
def goodPath (p : List String) : Bool :=
  p.dropLast.all keepDirName &&
    (match p.getLast? with
     | some f => keepFileName f
     | none => true)

/-! ## Project registry: `ProjectConfig.get_project_root` (lines 58-63)

A configured project is its `'root'` entry (`project_data.get('root', '')`
reads `''` when absent); `projects` is an insertion-ordered association
list, as a Python dict. -/

structure ProjectData where
  root : Option String
deriving DecidableEq, Repr

/-- `get_project_root`: the `'root'` of the first key equal to
`project_name` ignoring case, `''` when none matches. -/
def get_project_root : List (String × ProjectData) → String → String
  | [], _ => ""
  | (key, project_data) :: rest, project_name =>
    if pyLower key == pyLower project_name then (project_data.root).getD ""
    else get_project_root rest project_name

/-! ## The `repo_map` tool (lines 89-191) -/

/-- A tool's returned dictionary: either `{"error": msg}` or `{"map": text}`. -/
inductive ToolResult where
  | error (msg : String)
  | map (text : String)
deriving DecidableEq, Repr

/-- The message of lines 128-129 and 252-253. -/
def notFoundMsg (project_name : String) : String :=
  "Project \x27" ++ project_name ++ "\x27 not found in projects.json"

/-- The message of line 152. -/
def noFilesMsg : String := "No files found to generate a map."

/-- The message of line 188. -/
def noMapMsg : String := "No repository map could be generated."

/-- Lines 138-143: `other_files` when non-empty, otherwise the scan of the
project root (`find_src_files(project_root)`, abstracted as `scan`). -/
def effective_other_files (scan : String → List String) (project_root : String)
    (other_files : List String) : List String :=
  if other_files = [] then scan project_root else other_files

/-- Line 156: `[str(Path(f).resolve()) for f in chat_files_list]`, with
`resolve` the injected path resolution. -/
def abs_chat_files (resolve : String → String) (chat_files_list : List String) : List String :=
  chat_files_list.map resolve

/-- Lines 157-161: resolve the other files, then drop any that is also a
(resolved) chat file. -/
def abs_other_files (resolve : String → String)
    (chat_files_list effective_others : List String) : List String :=
  (effective_others.map resolve).filter
    (fun f => !((abs_chat_files resolve chat_files_list).contains f))

/-- The `repo_map` tool body (lines 119-191), for an initialized server.
`scan` models `find_src_files` on the root, `engine` models
`RepoMap.get_repo_map` (its `Except` error is the caught exception of
lines 189-191, its `Option` result the possibly-`None` map content);
`token_limit` and the other pass-through engine parameters are absorbed
into `engine`. -/
def repo_map (projects : List (String × ProjectData))
    (resolve : String → String) (scan : String → List String)
    (engine : List String → List String → Except String (Option String))
    (project_name : String)
    (chat_files other_files : List String) : ToolResult :=
  let project_root := get_project_root projects project_name
  if project_root = "" then ToolResult.error (notFoundMsg project_name)
  else
    let chat_files_list := chat_files
    let eff := effective_other_files scan project_root other_files
    if chat_files_list = [] ∧ eff = [] then ToolResult.map noFilesMsg
    else
      match engine (abs_chat_files resolve chat_files_list)
          (abs_other_files resolve chat_files_list eff) with
      | Except.error e => ToolResult.error ("Error generating repository map: " ++ e)
      | Except.ok map_content =>
        -- line 188: `map_content or "No repository map could be generated."`
        match map_content with
        | none => ToolResult.map noMapMsg
        | some s => if s = "" then ToolResult.map noMapMsg else ToolResult.map s

/-! ## The `search_identifiers` tool (lines 220-321) -/

/-- One entry of the returned `results` list (lines 309-315). -/
structure SearchEntry where
  file : String
  line : Int
  name : String
  kind : String
  context : String
deriving DecidableEq, Repr

/-- The `search_identifiers` returned dictionary. -/
inductive SearchOut where
  | error (msg : String)
  | results (entries : List SearchEntry)
deriving DecidableEq, Repr

/-- The `search_identifiers` tool body (lines 244-321), for an initialized
server.  `get_tags` models the tag gathering over `find_src_files` of
lines 267-274; `render_ctx` models the `render_tree` context of lines
297-306, with `""` standing for a falsy context (line 308). -/
def search_identifiers (projects : List (String × ProjectData))
    (get_tags : String → List Tag) (render_ctx : Tag → String)
    (project_name query : String) (max_results : Int)
    (include_definitions include_references : Bool) : SearchOut :=
  let project_root := get_project_root projects project_name
  if project_root = "" then SearchOut.error (notFoundMsg project_name)
  else
    let limited := limited_matching_tags (get_tags project_root) query
      include_definitions include_references max_results
    SearchOut.results (limited.filterMap (fun t =>
      let c := render_ctx t
      if c = "" then none
      else some ⟨t.rel_fname, t.line, t.name, t.kind, c⟩))

/-! ## The map engine's budget fitting

Modelled from the spec: `repomap_class` (the `RepoMap` engine) is not in
the supplied sources. -/

/-- Modelled from the spec: §4.5 step 3 converges on "the largest
inclusion count whose rendered token cost is ≤ `token_limit`" among counts
`0..n`; `none` when every count exceeds the budget. -/
def largestFit (cost : Nat → Nat) (token_limit : Nat) : Nat → Option Nat
  | 0 => if cost 0 ≤ token_limit then some 0 else none
  | k + 1 => if cost (k + 1) ≤ token_limit then some (k + 1) else largestFit cost token_limit k

/-- Modelled from the spec: the renderer's token-fit search (§4.5, missing
with `repomap_class`).  `render k` is the rendering of the top `k` ranked
tags (`render 1` the smallest non-empty rendering), `token_counter` the
injected token counter, `n ≥ 1` the number of candidate tags.  It returns
the largest-count rendering that fits the budget, falling back to the
smallest non-empty rendering when even that exceeds the budget (§4.5
failure policy). -/
def generate_map (render : Nat → String) (token_counter : String → Nat)
    (token_limit : Nat) (n : Nat) : String :=
  match largestFit (fun k => token_counter (render k)) token_limit n with
  | some k => render k
  | none => render 1

/-! ## Concrete instances used by witnesses and counterexamples -/

/-- A renderer whose `k`-tag map is `k` copies of `a`. -/
def renderEx (k : Nat) : String := String.mk (List.replicate k 'a')

/-- A token counter: one token per character. -/
def tokenCounterEx (s : String) : Nat := s.length

/-- A reference tag matching query `"a"` at position 0. -/
def tagRefA : Tag := ⟨"a.py", 1, "a", "ref"⟩

/-- A definition tag matching query `"a"` at position 1. -/
def tagDefBA : Tag := ⟨"a.py", 2, "ba", "def"⟩

/-- A one-project registry. -/
def projectsEx : List (String × ProjectData) := [("Proj", ⟨some "/r"⟩)]

/-- A scan that finds one source file under any root. -/
def scanOneEx : String → List String := fun _ => ["/r/a.py"]

/-- A scan that finds nothing. -/
def scanNoneEx : String → List String := fun _ => []

/-- An engine producing a fixed map. -/
def engineEx : List String → List String → Except String (Option String) :=
  fun _ _ => Except.ok (some "MAP")

/-- A tag extractor that finds no tags. -/
def getTagsNoneEx : String → List Tag := fun _ => []

/-- A context renderer producing a fixed context. -/
def renderCtxEx : Tag → String := fun _ => "ctx"

/-! # Helper lemmas -/

theorem insertTag_perm (le : α → α → Bool) (x : α) (l : List α) :
    List.Perm (insertTag le x l) (x :: l) := by
  induction l with
  | nil => simp [insertTag]
  | cons y ys ih =>
    simp only [insertTag]
    split
    · exact (ih.cons y).trans (List.Perm.swap x y ys)
    · exact List.Perm.refl _

theorem sortTags_foldl_perm (le : α → α → Bool) (l acc : List α) :
    List.Perm (l.foldl (fun acc x => insertTag le x acc) acc) (acc ++ l) := by
  induction l generalizing acc with
  | nil => simp
  | cons x xs ih =>
    simp only [List.foldl_cons]
    refine (ih (insertTag le x acc)).trans ?_
    have h1 : List.Perm (insertTag le x acc ++ xs) ((x :: acc) ++ xs) :=
      (insertTag_perm le x acc).append_right xs
    refine h1.trans ?_
    have hmid : List.Perm (x :: (acc ++ xs)) (acc ++ x :: xs) := List.perm_middle.symm
    simpa using hmid

theorem sortTags_perm (le : α → α → Bool) (l : List α) :
    List.Perm (sortTags le l) l := by
  simpa using sortTags_foldl_perm le l []

theorem insertTag_pairwise (le : α → α → Bool)
    (total : ∀ a b, le a b = true ∨ le b a = true)
    (trans : ∀ a b c, le a b = true → le b c = true → le a c = true)
    (x : α) (l : List α) (h : l.Pairwise (fun a b => le a b = true)) :
    (insertTag le x l).Pairwise (fun a b => le a b = true) := by
  induction l with
  | nil => simp [insertTag]
  | cons y ys ih =>
    simp only [insertTag]
    rcases List.pairwise_cons.mp h with ⟨hy, hys⟩
    split
    · rename_i hyx
      refine List.pairwise_cons.mpr ⟨?_, ih hys⟩
      intro z hz
      have hz' := (List.Perm.mem_iff (insertTag_perm le x ys)).mp hz
      rcases List.mem_cons.mp hz' with hz' | hz'
      · subst hz'; exact hyx
      · exact hy z hz'
    · rename_i hyx
      have hxy : le x y = true := (total x y).resolve_right (by simpa using hyx)
      refine List.pairwise_cons.mpr ⟨?_, h⟩
      intro z hz
      rcases List.mem_cons.mp hz with hz | hz
      · subst hz; exact hxy
      · exact trans x y z hxy (hy z hz)

theorem sortTags_pairwise (le : α → α → Bool)
    (total : ∀ a b, le a b = true ∨ le b a = true)
    (trans : ∀ a b c, le a b = true → le b c = true → le a c = true)
    (l : List α) :
    (sortTags le l).Pairwise (fun a b => le a b = true) := by
  suffices h : ∀ acc, acc.Pairwise (fun a b => le a b = true) →
      (l.foldl (fun acc x => insertTag le x acc) acc).Pairwise (fun a b => le a b = true) by
    exact h [] (by simp)
  induction l with
  | nil => intro acc hacc; simpa using hacc
  | cons x xs ih =>
    intro acc hacc
    simp only [List.foldl_cons]
    exact ih _ (insertTag_pairwise le total trans x acc hacc)

theorem keyLE_total (q : String) (a b : Tag) :
    keyLE q a b = true ∨ keyLE q b a = true := by
  simp only [keyLE, Bool.or_eq_true, Bool.and_eq_true, Bool.not_eq_true',
    beq_iff_eq, decide_eq_true_eq]
  rcases hab : (a.kind != "def") with _ | _ <;> rcases hba : (b.kind != "def") with _ | _ <;>
    simp <;> omega

theorem keyLE_trans (q : String) (a b c : Tag) :
    keyLE q a b = true → keyLE q b c = true → keyLE q a c = true := by
  simp only [keyLE, Bool.or_eq_true, Bool.and_eq_true, Bool.not_eq_true',
    beq_iff_eq, decide_eq_true_eq]
  rcases (a.kind != "def") with _ | _ <;> rcases (b.kind != "def") with _ | _ <;>
    rcases (c.kind != "def") with _ | _ <;> simp <;> omega

theorem subFindAux_isSome_iff (needle hay : List Char) (i : Nat) :
    (subFindAux needle hay i).isSome = true ↔ ∃ pre post, hay = pre ++ needle ++ post := by
  induction hay generalizing i with
  | nil =>
    simp only [subFindAux]
    constructor
    · intro h
      have hne : needle.isEmpty = true := by
        by_contra hne
        simp [hne] at h
      refine ⟨[], [], ?_⟩
      simp [List.isEmpty_iff.mp hne]
    · rintro ⟨pre, post, hpp⟩
      have : needle = [] := by
        rcases List.append_eq_nil.mp (List.append_eq_nil.mp hpp.symm).1 with ⟨-, h2⟩
        exact h2
      simp [this]
  | cons c cs ih =>
    simp only [subFindAux]
    split
    · rename_i hpre
      simp only [Option.isSome_some, true_iff]
      rcases List.isPrefixOf_iff_prefix.mp hpre with ⟨post, hpost⟩
      exact ⟨[], post, by simp [hpost]⟩
    · rename_i hpre
      rw [ih]
      constructor
      · rintro ⟨pre, post, hpp⟩
        exact ⟨c :: pre, post, by simp [hpp]⟩
      · rintro ⟨pre, post, hpp⟩
        rcases pre with _ | ⟨p, pre⟩
        · exfalso
          apply hpre
          apply List.isPrefixOf_iff_prefix.mpr
          exact ⟨post, by simpa using hpp.symm⟩
        · rcases List.cons_eq_cons.mp hpp with ⟨-, htail⟩
          exact ⟨pre, post, htail⟩

theorem pyContains_iff (hay needle : String) :
    pyContains hay needle = true ↔
      ∃ pre post, hay.toList = pre ++ needle.toList ++ post := by
  simpa [pyContains] using subFindAux_isSome_iff needle.toList hay.toList 0

theorem largestFit_some (cost : Nat → Nat) (token_limit n k : Nat)
    (h : largestFit cost token_limit n = some k) : cost k ≤ token_limit := by
  induction n with
  | zero =>
    simp only [largestFit] at h
    split at h
    · rename_i h0; cases h; exact h0
    · cases h
  | succ m ih =>
    simp only [largestFit] at h
    split at h
    · rename_i h0; cases h; exact h0
    · exact ih h

theorem largestFit_none (cost : Nat → Nat) (token_limit n : Nat)
    (h : largestFit cost token_limit n = none) :
    ∀ k, k ≤ n → token_limit < cost k := by
  induction n with
  | zero =>
    simp only [largestFit] at h
    split at h
    · cases h
    · rename_i h0
      intro k hk
      have : k = 0 := Nat.le_zero.mp hk
      subst this
      omega
  | succ m ih =>
    simp only [largestFit] at h
    split at h
    · cases h
    · rename_i h0
      intro k hk
      rcases Nat.lt_or_ge k (m + 1) with hk' | hk'
      · exact ih h k (Nat.lt_succ_iff.mp hk')
      · have : k = m + 1 := Nat.le_antisymm hk hk'
        subst this
        omega

theorem walk_good (cs : List FSEntry) :
    ∀ p ∈ walk cs, p ≠ [] ∧ goodPath p = true := by
  induction cs using walk.induct with
  | case1 => simp [walk]
  | case2 f rest ih =>
    intro p hp
    simp only [walk, List.mem_append] at hp
    rcases hp with hp | hp
    · split at hp
      · rename_i hkeep
        simp only [List.mem_singleton] at hp
        subst hp
        exact ⟨by simp, by simp [goodPath, hkeep]⟩
      · simp at hp
    · exact ih p hp
  | case3 d css rest ihd ih =>
    intro p hp
    simp only [walk, List.mem_append] at hp
    rcases hp with hp | hp
    · split at hp
      · rename_i hkeep
        simp only [List.mem_map] at hp
        rcases hp with ⟨q, hq, rfl⟩
        rcases ihd q hq with ⟨hne, hgood⟩
        refine ⟨by simp, ?_⟩
        rcases q with _ | ⟨a, as⟩
        · exact absurd rfl hne
        · simp only [goodPath, Bool.and_eq_true, List.all_eq_true] at hgood ⊢
          rcases hgood with ⟨hdl, hlast⟩
          constructor
          · intro x hx
            simp only [List.dropLast_cons₂, List.mem_cons] at hx
            rcases hx with rfl | hx
            · exact hkeep
            · exact hdl x hx
          · simpa [List.getLast?_cons_cons] using hlast
      · simp at hp
    · exact ih p hp

/-! # Claims -/

/-- C1: for the budget-fitting renderer (modelled from the spec, the
engine is not in the supplied sources), the token count of the returned
map is at most `token_limit`, except in the best-effort fallback where
even the smallest non-empty rendering (`render 1`) exceeds the budget and
is returned anyway. -/
theorem c1_token_budget (render : Nat → String) (token_counter : String → Nat)
    (token_limit n : Nat) (h : 1 ≤ n) :
    token_counter (generate_map render token_counter token_limit n) ≤ token_limit ∨
      (token_limit < token_counter (render 1) ∧
        generate_map render token_counter token_limit n = render 1) := by
  rcases hfit : largestFit (fun k => token_counter (render k)) token_limit n with _ | k
  · right
    rw [generate_map, hfit]
    exact ⟨largestFit_none _ _ _ hfit 1 h, rfl⟩
  · left
    rw [generate_map, hfit]
    exact largestFit_some _ _ _ _ hfit

/-- C1 witness: a concrete renderer (`k` characters for `k` tags), a
character-counting token counter, budget 2, three candidate tags. -/
theorem c1_token_budget_witness :
    tokenCounterEx (generate_map renderEx tokenCounterEx 2 3) ≤ 2 ∨
      (2 < tokenCounterEx (renderEx 1) ∧
        generate_map renderEx tokenCounterEx 2 3 = renderEx 1) :=
  c1_token_budget renderEx tokenCounterEx 2 3 (by decide)

/-- C2 counterexample: for query `"a"`, a reference named `"a"` (match
position 0) and a definition named `"ba"` (match position 1) both match,
and the code sorts the definition first even though the reference has the
earlier match position — the claimed position-first ordering is violated. -/
theorem c2_ordering_counterexample :
    matching_tags [tagRefA, tagDefBA] "a" true true = [tagRefA, tagDefBA] ∧
      sorted_matching_tags [tagRefA, tagDefBA] "a" true true = [tagDefBA, tagRefA] ∧
      specOrdered (pyLower "a") (sorted_matching_tags [tagRefA, tagDefBA] "a" true true) =
        false := by
  decide

/-- C2 (amended): matches are sorted by the code's key — all
definition-kind matches precede all reference-kind matches, and within
equal kinds earlier substring positions come first (lexicographic
`keyLE`); in particular every definition appears before every reference. -/
theorem c2_ordering (all_tags : List Tag) (query : String)
    (include_definitions include_references : Bool) :
    ((sorted_matching_tags all_tags query include_definitions include_references).Pairwise
        (fun a b => keyLE (pyLower query) a b = true)) ∧
      ((sorted_matching_tags all_tags query include_definitions include_references).Pairwise
        (fun a b => b.kind = "def" → a.kind = "def")) := by
  have hp := sortTags_pairwise (keyLE (pyLower query)) (keyLE_total _) (keyLE_trans _)
    (matching_tags all_tags query include_definitions include_references)
  refine ⟨hp, hp.imp ?_⟩
  intro a b hle hb
  by_contra ha
  have hka : (a.kind != "def") = true := by simp [bne_iff_ne, ha]
  have hkb : (b.kind != "def") = false := by simp [hb]
  simp [keyLE, hka, hkb] at hle

/-- C3 counterexample: with `chat_files=[]` and `other_files=[]` but a
project root whose scan finds a file, `repo_map` falls back to the scan
and returns an engine map, not the "no files" result. -/
theorem c3_empty_input_counterexample :
    repo_map projectsEx id scanOneEx engineEx "Proj" [] [] = ToolResult.map "MAP" ∧
      ToolResult.map "MAP" ≠ ToolResult.map noFilesMsg := by
  decide

/-- C3 (amended): with `chat_files=[]` and `other_files=[]`, `repo_map`
returns the explicit "no files" result exactly when the fallback scan of
the project root also finds nothing; and (for engines that never emit that
literal text) the "no files" result arises only from a total absence of
files to process. -/
theorem c3_empty_input (projects : List (String × ProjectData))
    (resolve : String → String) (scan : String → List String)
    (engine : List String → List String → Except String (Option String))
    (project_name : String) (chat_files other_files : List String) :
    (get_project_root projects project_name ≠ "" → chat_files = [] → other_files = [] →
      scan (get_project_root projects project_name) = [] →
      repo_map projects resolve scan engine project_name chat_files other_files =
        ToolResult.map noFilesMsg) ∧
    ((∀ c o, engine c o ≠ Except.ok (some noFilesMsg)) →
      repo_map projects resolve scan engine project_name chat_files other_files =
        ToolResult.map noFilesMsg →
      chat_files = [] ∧
        effective_other_files scan (get_project_root projects project_name) other_files = []) := by
  constructor
  · intro hroot hchat hother hscan
    subst hchat; subst hother
    have heff : effective_other_files scan (get_project_root projects project_name) [] = [] := by
      simp [effective_other_files, hscan]
    simp [repo_map, hroot, heff]
  · intro heng hres
    simp only [repo_map] at hres
    by_cases hroot : get_project_root projects project_name = ""
    · rw [if_pos hroot] at hres; cases hres
    · rw [if_neg hroot] at hres
      by_cases hcond : chat_files = [] ∧
          effective_other_files scan (get_project_root projects project_name) other_files = []
      · exact hcond
      · exfalso
        rw [if_neg hcond] at hres
        rcases heq : engine (abs_chat_files resolve chat_files)
            (abs_other_files resolve chat_files
              (effective_other_files scan (get_project_root projects project_name)
                other_files)) with e | mc
        · rw [heq] at hres
          exact ToolResult.noConfusion hres
        · rw [heq] at hres
          rcases mc with _ | s
          · have hres2 : ToolResult.map noMapMsg = ToolResult.map noFilesMsg := hres
            injection hres2 with h
            exact absurd h (by decide)
          · have hres2 : (if s = "" then ToolResult.map noMapMsg else ToolResult.map s) =
                ToolResult.map noFilesMsg := hres
            by_cases hz : s = ""
            · rw [if_pos hz] at hres2
              injection hres2 with h
              exact absurd h (by decide)
            · rw [if_neg hz] at hres2
              injection hres2 with h
              subst h
              exact heng _ _ heq

/-- C3 witness: a configured project whose root scans to no files. -/
theorem c3_empty_input_witness :
    repo_map projectsEx id scanNoneEx engineEx "Proj" [] [] = ToolResult.map noFilesMsg :=
  (c3_empty_input projectsEx id scanNoneEx engineEx "Proj" [] []).1 (by decide) rfl rfl rfl

/-- C4: a tag is selected as a match iff the lowercased query occurs as a
substring of the lowercased identifier name and its kind is enabled by the
corresponding flag (`include_definitions` for `"def"` tags,
`include_references` for `"ref"` tags). -/
theorem c4_match_criterion (all_tags : List Tag) (query : String)
    (include_definitions include_references : Bool) (t : Tag) :
    t ∈ matching_tags all_tags query include_definitions include_references ↔
      t ∈ all_tags ∧
        (∃ pre post, (pyLower t.name).toList = pre ++ (pyLower query).toList ++ post) ∧
        ((t.kind = "def" ∧ include_definitions = true) ∨
          (t.kind = "ref" ∧ include_references = true)) := by
  rw [matching_tags, List.mem_filter]
  simp only [tag_matches, Bool.and_eq_true, Bool.or_eq_true, beq_iff_eq]
  rw [pyContains_iff]

/-- C5: the returned match list is the truncation to `max_results` of the
sorted list, hence a prefix of the fully sorted match set; the sorted set
is a permutation of the complete match set (sorting saw every match), and
the returned list has length at most `max_results`. -/
theorem c5_truncate_after_sort (all_tags : List Tag) (query : String)
    (include_definitions include_references : Bool) (max_results : Int)
    (h : 0 ≤ max_results) :
    limited_matching_tags all_tags query include_definitions include_references max_results <+:
        sorted_matching_tags all_tags query include_definitions include_references ∧
      List.Perm (sorted_matching_tags all_tags query include_definitions include_references)
        (matching_tags all_tags query include_definitions include_references) ∧
      (limited_matching_tags all_tags query include_definitions include_references
          max_results).length ≤ max_results.toNat := by
  refine ⟨?_, sortTags_perm _ _, ?_⟩
  · rw [limited_matching_tags, pySliceTo, if_pos h]
    exact List.take_prefix _ _
  · rw [limited_matching_tags, pySliceTo, if_pos h]
    simp [List.length_take]

/-- C5 witness: two matches, `max_results = 1`. -/
theorem c5_truncate_after_sort_witness :
    limited_matching_tags [tagRefA, tagDefBA] "a" true true 1 <+:
        sorted_matching_tags [tagRefA, tagDefBA] "a" true true ∧
      List.Perm (sorted_matching_tags [tagRefA, tagDefBA] "a" true true)
        (matching_tags [tagRefA, tagDefBA] "a" true true) ∧
      (limited_matching_tags [tagRefA, tagDefBA] "a" true true 1).length ≤ (1 : Int).toNat :=
  c5_truncate_after_sort [tagRefA, tagDefBA] "a" true true 1 (by decide)

/-- C6 counterexample: `find_src_files` on a path that is itself a hidden
file returns that path unfiltered (line 18), so a returned path can have a
filename component starting with `'.'`. -/
theorem c6_enumeration_counterexample :
    [".env"] ∈ find_src_files (FSEntry.file ".env") ∧ goodPath [".env"] = false := by
  decide

/-- C6 (amended): every path returned for a directory argument consists of
the argument's own name followed by walked components in which no
directory component starts with `'.'` or is named `node_modules`,
`__pycache__`, `venv` or `env`, and the filename component does not start
with `'.'`; a file argument is returned as-is. -/
theorem c6_enumeration (name : String) (children : List FSEntry) (p : List String)
    (hp : p ∈ find_src_files (FSEntry.dir name children)) :
    ∃ q, p = name :: q ∧ goodPath q = true := by
  simp only [find_src_files, List.mem_map] at hp
  rcases hp with ⟨q, hq, rfl⟩
  exact ⟨q, rfl, (walk_good children q hq).2⟩

/-- C6 witness: a directory with one plain file, one hidden directory and
one hidden file; the single returned path is the plain file's. -/
theorem c6_enumeration_witness :
    ∃ q, ["root", "a.py"] = "root" :: q ∧ goodPath q = true := by
  refine c6_enumeration "root"
    [FSEntry.file "a.py", FSEntry.dir ".git" [FSEntry.file "HEAD"], FSEntry.file ".hidden"]
    ["root", "a.py"] ?_
  have h1 : keepFileName "a.py" = true := by decide
  have h2 : keepDirName ".git" = false := by decide
  have h3 : keepFileName ".hidden" = false := by decide
  simp [find_src_files, walk, h1, h2, h3]

/-- C7: after path resolution, the other-files list handed to the map
engine is disjoint from the resolved chat files — a file appearing in both
lists is kept only as a chat file. -/
theorem c7_no_duplicates (resolve : String → String)
    (chat_files_list effective_others : List String) (f : String)
    (hf : f ∈ abs_other_files resolve chat_files_list effective_others) :
    f ∉ abs_chat_files resolve chat_files_list := by
  rw [abs_other_files] at hf
  rcases List.mem_filter.mp hf with ⟨-, hmem⟩
  intro hc
  simp at hmem
  exact hmem hc

/-- C7 witness: `"a"` appears in both lists (identity resolution); the
engine's other-files list is `["b"]` and `"b"` is not a chat file. -/
theorem c7_no_duplicates_witness : "b" ∉ abs_chat_files id ["a"] :=
  c7_no_duplicates id ["a"] ["a", "b"] "b" (by decide)

/-- C8: when the registry lookup yields an empty root, both tools return
an error result that carries the project name (as a substring of the
message), for every engine / tag extractor — so neither map generation nor
search is performed. -/
theorem c8_unknown_project (projects : List (String × ProjectData))
    (resolve : String → String) (scan : String → List String)
    (engine : List String → List String → Except String (Option String))
    (get_tags : String → List Tag) (render_ctx : Tag → String)
    (project_name query : String) (chat_files other_files : List String)
    (max_results : Int) (include_definitions include_references : Bool)
    (h : get_project_root projects project_name = "") :
    repo_map projects resolve scan engine project_name chat_files other_files =
        ToolResult.error (notFoundMsg project_name) ∧
      search_identifiers projects get_tags render_ctx project_name query max_results
          include_definitions include_references =
        SearchOut.error (notFoundMsg project_name) ∧
      pyContains (notFoundMsg project_name) project_name = true := by
  refine ⟨?_, ?_, ?_⟩
  · simp only [repo_map]
    rw [if_pos h]
  · simp only [search_identifiers]
    rw [if_pos h]
  · rw [pyContains_iff]
    refine ⟨("Project \x27" : String).toList, ("\x27 not found in projects.json" : String).toList, ?_⟩
    show (("Project \x27" ++ project_name) ++ "\x27 not found in projects.json").toList = _
    simp [String.toList]

/-- C8 witness: an empty registry. -/
theorem c8_unknown_project_witness :
    repo_map [] id scanNoneEx engineEx "p" [] [] = ToolResult.error (notFoundMsg "p") ∧
      search_identifiers [] getTagsNoneEx renderCtxEx "p" "q" 50 true true =
        SearchOut.error (notFoundMsg "p") ∧
      pyContains (notFoundMsg "p") "p" = true :=
  c8_unknown_project [] id scanNoneEx engineEx getTagsNoneEx renderCtxEx "p" "q" [] [] 50
    true true rfl

/-- C9: the `map` key is never the empty string: zero candidate files give
the explicit "no files" message, and an engine result of `None` or `""`
gives the explicit "no map" message. -/
theorem c9_map_never_empty (projects : List (String × ProjectData))
    (resolve : String → String) (scan : String → List String)
    (engine : List String → List String → Except String (Option String))
    (project_name : String) (chat_files other_files : List String) :
    (∀ s, repo_map projects resolve scan engine project_name chat_files other_files =
        ToolResult.map s → s ≠ "") ∧
    (get_project_root projects project_name ≠ "" → chat_files = [] →
      effective_other_files scan (get_project_root projects project_name) other_files = [] →
      repo_map projects resolve scan engine project_name chat_files other_files =
        ToolResult.map noFilesMsg) ∧
    (get_project_root projects project_name ≠ "" →
      ¬(chat_files = [] ∧
        effective_other_files scan (get_project_root projects project_name) other_files = []) →
      (engine (abs_chat_files resolve chat_files)
          (abs_other_files resolve chat_files
            (effective_other_files scan (get_project_root projects project_name) other_files)) =
            Except.ok none ∨
        engine (abs_chat_files resolve chat_files)
          (abs_other_files resolve chat_files
            (effective_other_files scan (get_project_root projects project_name) other_files)) =
            Except.ok (some "")) →
      repo_map projects resolve scan engine project_name chat_files other_files =
        ToolResult.map noMapMsg) := by
  refine ⟨?_, ?_, ?_⟩
  · intro s hs
    simp only [repo_map] at hs
    by_cases hroot : get_project_root projects project_name = ""
    · rw [if_pos hroot] at hs; cases hs
    · rw [if_neg hroot] at hs
      by_cases hcond : chat_files = [] ∧
          effective_other_files scan (get_project_root projects project_name) other_files = []
      · rw [if_pos hcond] at hs
        injection hs with h
        subst h
        decide
      · rw [if_neg hcond] at hs
        rcases heq : engine (abs_chat_files resolve chat_files)
            (abs_other_files resolve chat_files
              (effective_other_files scan (get_project_root projects project_name)
                other_files)) with e | mc
        · rw [heq] at hs
          exact ToolResult.noConfusion hs
        · rw [heq] at hs
          rcases mc with _ | s'
          · have hs2 : ToolResult.map noMapMsg = ToolResult.map s := hs
            injection hs2 with h
            subst h
            decide
          · have hs2 : (if s' = "" then ToolResult.map noMapMsg else ToolResult.map s') =
                ToolResult.map s := hs
            by_cases hz : s' = ""
            · rw [if_pos hz] at hs2
              injection hs2 with h
              subst h
              decide
            · rw [if_neg hz] at hs2
              injection hs2 with h
              subst h
              exact hz
  · intro hroot hchat heff
    simp only [repo_map]
    rw [if_neg hroot, if_pos ⟨hchat, heff⟩]
  · intro hroot hcond hengine
    simp only [repo_map]
    rw [if_neg hroot, if_neg hcond]
    rcases hengine with he | he
    · rw [he]
    · rw [he]
      simp

/-- C9 witness: a valid project whose scan finds nothing gives the "no
files" message, which is non-empty. -/
theorem c9_map_never_empty_witness :
    repo_map projectsEx id scanNoneEx engineEx "Proj" [] [] = ToolResult.map noFilesMsg ∧
      noFilesMsg ≠ "" := by
  have h := c9_map_never_empty projectsEx id scanNoneEx engineEx "Proj" [] []
  have hmap := h.2.1 (by decide) rfl rfl
  exact ⟨hmap, h.1 noFilesMsg hmap⟩

/-- C10: project lookup is case-insensitive: the result is the `'root'`
of the first configured key equal to the name ignoring case, `""` when no
key matches, and names differing only in case resolve identically. -/
theorem c10_project_lookup (projects : List (String × ProjectData)) (project_name : String) :
    ((∀ kv ∈ projects, pyLower kv.1 ≠ pyLower project_name) →
      get_project_root projects project_name = "") ∧
    (∀ l₁ k pd l₂, projects = l₁ ++ (k, pd) :: l₂ →
      (∀ kv ∈ l₁, pyLower kv.1 ≠ pyLower project_name) →
      pyLower k = pyLower project_name →
      get_project_root projects project_name = pd.root.getD "") ∧
    (∀ other_name, pyLower project_name = pyLower other_name →
      get_project_root projects project_name = get_project_root projects other_name) := by
  refine ⟨?_, ?_, ?_⟩
  · induction projects with
    | nil => intro _; rfl
    | cons kv rest ih =>
      intro hall
      rcases kv with ⟨key, pd⟩
      have hne : ¬((pyLower key == pyLower project_name) = true) := by
        simp only [beq_iff_eq]
        exact hall (key, pd) (List.mem_cons_self _ _)
      simp only [get_project_root]
      rw [if_neg hne]
      exact ih (fun kv hkv => hall kv (List.mem_cons_of_mem _ hkv))
  · intro l₁ k pd l₂ hproj
    subst hproj
    induction l₁ with
    | nil =>
      intro _ hk
      simp only [List.nil_append, get_project_root]
      rw [if_pos (beq_iff_eq.mpr hk)]
    | cons kv rest ih =>
      intro hl₁ hk
      rcases kv with ⟨key, pd₀⟩
      have hne : ¬((pyLower key == pyLower project_name) = true) := by
        simp only [beq_iff_eq]
        exact hl₁ (key, pd₀) (List.mem_cons_self _ _)
      rw [List.cons_append]
      simp only [get_project_root]
      rw [if_neg hne]
      exact ih (fun kv hkv => hl₁ kv (List.mem_cons_of_mem _ hkv)) hk
  · intro other_name hlow
    induction projects with
    | nil => rfl
    | cons kv rest ih =>
      rcases kv with ⟨key, pd⟩
      simp only [get_project_root]
      rw [hlow, ih]

/-- C10 witness: the key `"Proj"` is found by the names `"PROJ"` and
`"proj"`, which resolve identically. -/
theorem c10_project_lookup_witness :
    get_project_root projectsEx "PROJ" = "/r" ∧
      get_project_root projectsEx "PROJ" = get_project_root projectsEx "proj" := by
  constructor
  · exact (c10_project_lookup projectsEx "PROJ").2.1 [] "Proj" ⟨some "/r"⟩ [] rfl
      (by simp) (by decide)
  · exact (c10_project_lookup projectsEx "PROJ").2.2 "proj" (by decide)

end RepoMapper
